import Mathlib

/-!
# Verification of the plutus ledger reconciliation core (`transactions.py`)

This file gives a shallow embedding of the btctrd ledger parser and the
reconciliation engine of `transactions.py`, and proves/refutes the frozen
claims about them.

Modelling conventions:
* Python `float` values are modelled as exact rationals (`ℚ`); the arithmetic
  performed by the engine (sums of absolute values, one ratio) is modelled
  exactly.  Python raises `ZeroDivisionError` on float division by zero, so
  the division at group closure is modelled in an `Except` monad.
* Python dicts holding heterogeneous state (`collections.defaultdict(float)`)
  are modelled as structures; the `coin` entry, which is either the float
  default `0.0` or a coin string, becomes `Option String` (`none` ↔ `0.0`).
* `assert` statements become `Except.error` values, so an aborted run yields
  no partial output by construction.
* Python's `sorted` is a stable sort; it is modelled by `List.insertionSort`
  (also stable) with the lexicographic tuple order Python uses.
-/

set_option maxRecDepth 8000

deriving instance DecidableEq for Except

/-- Python's `str.startswith`: `pre` is a prefix of `s`.
Modelled on the character lists so that the kernel can evaluate it. -/
def strStartsWith (s pre : String) : Bool :=
  pre.data.isPrefixOf s.data

/-!
Batteries marks `Rat.add`, `Rat.mul` and `Rat.inv` `@[irreducible]`, which
blocks kernel evaluation of concrete runs.  The model therefore spells the
four arithmetic operations the source uses through the reducible smart
constructor `mkRat`; the lemmas `qAdd_eq`, `qMul_eq`, `qDiv_eq` and
`qAbs_eq` prove that they are exactly `+`, `*`, `/` and `abs` on `ℚ`.
-/

/-- Rational addition, kernel-reducible; equals `a + b` by `qAdd_eq`. -/
def qAdd (a b : ℚ) : ℚ := mkRat (a.num * b.den + b.num * a.den) (a.den * b.den)

/-- Rational multiplication, kernel-reducible; equals `a * b` by `qMul_eq`. -/
def qMul (a b : ℚ) : ℚ := mkRat (a.num * b.num) (a.den * b.den)

/-- Rational inverse, kernel-reducible; equals `a⁻¹` by `qInv_eq`. -/
def qInv (a : ℚ) : ℚ := Rat.divInt a.den a.num

/-- Rational division, kernel-reducible; equals `a / b` by `qDiv_eq`. -/
def qDiv (a b : ℚ) : ℚ := qMul a (qInv b)

/-- Python's `abs` on rationals, kernel-reducible; equals `|a|` by `qAbs_eq`. -/
def qAbs (a : ℚ) : ℚ := if a.num < 0 then Rat.neg a else a

theorem qAdd_eq (a b : ℚ) : qAdd a b = a + b := (Rat.add_def' a b).symm

theorem qMul_eq (a b : ℚ) : qMul a b = a * b := by
  rw [Rat.mul_def, Rat.normalize_eq_mkRat]; rfl

theorem qInv_eq (a : ℚ) : qInv a = a⁻¹ := (Rat.inv_def a).symm

theorem qDiv_eq (a b : ℚ) : qDiv a b = a / b := by
  rw [qDiv, qMul_eq, qInv_eq, div_eq_mul_inv]

theorem qAbs_eq (a : ℚ) : qAbs a = |a| := by
  unfold qAbs
  split
  · next h =>
    rw [abs_of_neg]
    · rfl
    · exact lt_of_not_le fun hle => absurd (Rat.num_nonneg.mpr hle) (not_le.mpr h)
  · next h =>
    rw [abs_of_nonneg]
    exact Rat.num_nonneg.mp (le_of_not_lt h)

/-- One parsed ledger row, as produced by `parse_btctrd_data`:
keys `dttm`, `coin`, `act`, `value`, `balance`.  The engine never reads
`balance` but it is part of the row. -/
structure Row where
  dttm : String
  coin : String
  act : String
  value : ℚ
  balance : ℚ
deriving DecidableEq, Repr

/-- The mutable accumulator `curr_trans = collections.defaultdict(float)` of
`get_transactions_from_btctrd`, restricted to the keys the loop writes before
closure.  Every numeric entry defaults to `0`; the `coin` entry defaults to
the float `0.0`, modelled as `none`. -/
structure GState where
  coin : Option String
  value : ℚ
  paid_value : ℚ
  buying_fee : ℚ
  n_coin : ℕ
  n_fiat : ℕ
  next_withdrawal : ℚ
  next_withdrawal_fee : ℚ
deriving DecidableEq, Repr

/-- The empty accumulator (a fresh `defaultdict(float)`). -/
def initG : GState :=
  { coin := none, value := 0, paid_value := 0, buying_fee := 0,
    n_coin := 0, n_fiat := 0, next_withdrawal := 0, next_withdrawal_fee := 0 }

/-- Snapshot `dict(curr_trans)` appended to `all_trans` at closure:
the accumulator entries plus the `dttm` and `withd` entries set by the
closing branch. -/
structure RawTrans where
  dttm : String
  coin : Option String
  value : ℚ
  paid_value : ℚ
  buying_fee : ℚ
  withd : ℚ
  n_coin : ℕ
  n_fiat : ℕ
  next_withdrawal : ℚ
  next_withdrawal_fee : ℚ
deriving DecidableEq, Repr

/-- Fatal conditions of the engine: the two `assert`s inside the loop and
Python's `ZeroDivisionError` from `next_withdrawal_fee / next_withdrawal`. -/
inductive EngErr where
  | coinMismatch
  | fiatBuyingFee
  | divisionByZero
deriving DecidableEq, Repr

/-- Lines 126-134: bind the group's coin on the first non-fiat row, and
assert that later non-fiat rows name the same coin. -/
def coinCheckStep (row : Row) (s : GState) : Except EngErr GState :=
  if row.coin == "R$" then .ok s
  else
    match s.coin with
    | none => .ok { s with coin := some row.coin }
    | some c => if c == row.coin then .ok s else .error .coinMismatch

/-- Lines 135-148: while the group's coin is bound, scan `data_rows[ind:]`
for rows whose `act` starts with `"withdraw"` and whose `coin` equals the
*current row's* coin; record the first match's magnitude as
`next_withdrawal` and the second match's (or `0`) as `next_withdrawal_fee`.
`slice` is `data_rows[ind:]`, i.e. the current row consed onto the rest. -/
def lookaheadStep (row : Row) (slice : List Row) (s : GState) : GState :=
  if s.coin = none then s
  else
    match slice.filter (fun r => strStartsWith r.act "withdraw" && r.coin == row.coin) with
    | [] => s
    | w :: tl =>
      { s with
        next_withdrawal_fee := match tl with | [] => 0 | wf :: _ => qAbs wf.value,
        next_withdrawal := qAbs w.value }

/-- Lines 150-161: accumulate a `buy` row into `paid_value`/`value` and the
fill counts, and a `buying_fee` row into `buying_fee`; a fiat-denominated
buying fee is a fatal assertion. -/
def accumStep (row : Row) (s : GState) (val_tol : ℚ) : Except EngErr GState :=
  let s1 :=
    if row.act == "buy" then
      if row.coin == "R$" then
        let s' := { s with paid_value := qAdd s.paid_value (qAbs row.value) }
        if qAbs row.value > val_tol then { s' with n_fiat := s'.n_fiat + 1 } else s'
      else
        let s' := { s with value := qAdd s.value (qAbs row.value) }
        if qAbs row.value > val_tol then { s' with n_coin := s'.n_coin + 1 } else s'
    else s
  if row.act == "buying_fee" then
    if row.coin == "R$" then .error .fiatBuyingFee
    else .ok { s1 with buying_fee := qAdd s1.buying_fee (qAbs row.value) }
  else .ok s1

/-- Lines 162-175: the boundary test and closure.  `next_dttm` is
`next_row.get('dttm')` (`none` for the last row).  On closure the implied
withdrawal cost is `value * (next_withdrawal_fee / next_withdrawal)` when
`next_withdrawal_fee ≠ 0` (Python raises `ZeroDivisionError` when the
denominator is `0.0`), else `0`; the snapshot is emitted and the
accumulator reset. -/
def closeStep (row : Row) (next_dttm : Option String) (s : GState) :
    Except EngErr (GState × Option RawTrans) :=
  if next_dttm ≠ some row.dttm ∧ 0 < s.n_coin ∧ s.n_coin = s.n_fiat then
    match (if s.next_withdrawal_fee ≠ 0 then
             (if s.next_withdrawal = 0 then .error .divisionByZero
              else .ok (qMul s.value (qDiv s.next_withdrawal_fee s.next_withdrawal)))
           else .ok 0 : Except EngErr ℚ) with
    | .error e => .error e
    | .ok withd =>
      .ok (initG, some
        { dttm := row.dttm, coin := s.coin, value := s.value,
          paid_value := s.paid_value, buying_fee := s.buying_fee,
          withd := withd, n_coin := s.n_coin, n_fiat := s.n_fiat,
          next_withdrawal := s.next_withdrawal,
          next_withdrawal_fee := s.next_withdrawal_fee })
  else .ok (s, none)

/-- Lines 126-161 as one step: coin check, then lookahead, then
accumulation, on a row whose `act` starts with `"buy"`. -/
def preClose (row : Row) (rest : List Row) (s : GState) (val_tol : ℚ) :
    Except EngErr GState :=
  match coinCheckStep row s with
  | .error e => .error e
  | .ok s1 => accumStep row (lookaheadStep row (row :: rest) s1) val_tol

/-- One iteration of the engine loop (lines 117-175) on the current `row`,
with `rest` the rows after it.  Rows whose `act` does not start with
`"buy"` are skipped entirely (`continue` at line 124): in particular the
boundary test is not evaluated for them. -/
def stepRow (row : Row) (rest : List Row) (s : GState) (val_tol : ℚ) :
    Except EngErr (GState × Option RawTrans) :=
  if strStartsWith row.act "buy" then
    match preClose row rest s val_tol with
    | .error e => .error e
    | .ok u => closeStep row (rest.head?.map Row.dttm) u
  else .ok (s, none)

/-- The engine loop over the (already sorted) rows, returning the emitted
snapshots in emission order.  A failed assertion aborts the whole run. -/
def runRows (rows : List Row) (s : GState) (val_tol : ℚ) :
    Except EngErr (List RawTrans) :=
  match rows with
  | [] => .ok []
  | row :: rest =>
    match stepRow row rest s val_tol with
    | .error e => .error e
    | .ok (s', o) =>
      match runRows rest s' val_tol with
      | .error e => .error e
      | .ok ts => .ok (match o with | some t => t :: ts | none => ts)

/-- The normalized output record of `prepare_transaction_doc`. -/
structure TransDoc where
  source : String
  datetime : String
  pair : String
  ticker : String
  qty : ℚ
  total : ℚ
  total_ticker : String
  fee : ℚ
  fee_ticker : String
  mov_fee : ℚ
  mov_ticker : String
deriving DecidableEq, Repr

/-- The coin entry of a snapshot as Python string-interpolates it:
a bound coin prints itself, the unbound float default prints `"0.0"`
(unreachable for emitted snapshots, since closure requires a coin fill). -/
def coinStr : Option String → String
  | some c => c
  | none => "0.0"

/-- `prepare_transaction_doc` (lines 92-106). -/
def prepare_transaction_doc (t : RawTrans) : TransDoc :=
  { source := "btctrd", datetime := t.dttm, pair := coinStr t.coin ++ "BRL",
    ticker := coinStr t.coin, qty := t.value, total := t.paid_value,
    total_ticker := "BRL", fee := t.buying_fee, fee_ticker := coinStr t.coin,
    mov_fee := t.withd, mov_ticker := coinStr t.coin }

/-- Python's `<` on strings: strict lexicographic comparison of the
character sequences by code point. -/
def listLtB : List Char → List Char → Bool
  | _, [] => false
  | [], _ :: _ => true
  | a :: as, b :: bs =>
    if a.toNat < b.toNat then true
    else if b.toNat < a.toNat then false
    else listLtB as bs

/-- Python's `s1 < s2` on strings. -/
def strLtB (a b : String) : Bool :=
  listLtB a.data b.data

/-- The sort key of line 112: the Python tuple `(dttm, act, coin)`. -/
def rowKey (r : Row) : String × String × String :=
  (r.dttm, r.act, r.coin)

/-- Python's `<` on the key tuples `(dttm, act, coin)`. -/
def keyLTb (a b : Row) : Bool :=
  strLtB a.dttm b.dttm ||
    (a.dttm == b.dttm &&
      (strLtB a.act b.act || (a.act == b.act && strLtB a.coin b.coin)))

/-- Python's `<=` on the key tuples: strictly below, or equal keys. -/
def keyLEb (a b : Row) : Bool :=
  keyLTb a b || (a.dttm == b.dttm && a.act == b.act && a.coin == b.coin)

/-- The sort relation used by `sorted(data_rows, key=...)` at line 112. -/
def keyLE (a b : Row) : Prop := keyLEb a b = true

/-- Strict version of `keyLE`, used to compare sorted permutations. -/
def keyLT (a b : Row) : Prop := keyLTb a b = true

instance : DecidableRel keyLE := fun a b => by
  unfold keyLE; infer_instance

instance : DecidableRel keyLT := fun a b => by
  unfold keyLT; infer_instance

/-- Line 112, `sorted(data_rows, key=lambda x: (x['dttm'], x['act'], x['coin']))`:
Python's `sorted` is a stable sort, as is insertion sort. -/
def sortRows (rows : List Row) : List Row :=
  rows.insertionSort keyLE

/-- `get_transactions_from_btctrd` (lines 109-180).  The final re-ordering
of dict keys (line 179) is cosmetic and has no counterpart on structures. -/
def get_transactions_from_btctrd (data_rows : List Row)
    (val_tol : ℚ := mkRat 9 100000000) : Except EngErr (List TransDoc) :=
  match runRows (sortRows data_rows) initG val_tol with
  | .error e => .error e
  | .ok ts => .ok (ts.map prepare_transaction_doc)

/-! ## C2: the worked example scenario -/

/-- The five-event input of the spec's example scenario. -/
def c2rows : List Row :=
  [{ dttm := "10:00", coin := "BTC", act := "buy", value := mkRat 1 100, balance := 0 },
   { dttm := "10:00", coin := "R$", act := "buy", value := 500, balance := 0 },
   { dttm := "10:00", coin := "BTC", act := "buying_fee", value := mkRat 1 20000, balance := 0 },
   { dttm := "10:05", coin := "BTC", act := "withdraw", value := mkRat 1 100, balance := 0 },
   { dttm := "10:05", coin := "BTC", act := "withdrawal_fee", value := mkRat 1 10000, balance := 0 }]

/-- C2: on the five-event example input, the engine emits exactly one
transaction, dated at the `10:00` instant, with `qty = 0.01`,
`total = 500.0`, `fee = 0.00005` and
`mov_fee = 0.01 * (0.0001 / 0.01) = 0.0001`. -/
theorem C2_example_scenario :
    get_transactions_from_btctrd c2rows =
      .ok [{ source := "btctrd", datetime := "10:00", pair := "BTCBRL",
             ticker := "BTC", qty := mkRat 1 100, total := 500, total_ticker := "BRL",
             fee := mkRat 1 20000, fee_ticker := "BTC", mov_fee := mkRat 1 10000,
             mov_ticker := "BTC" }] := by
  decide

/-! ## C9: division by zero at closure -/

/-- An input whose lookahead captures a withdrawal of magnitude `0.0`
followed by a non-zero fee: a zero-valued `withdraw` row precedes a
`withdrawal_fee` row of the bound coin. -/
def c9rows : List Row :=
  [{ dttm := "10:00", coin := "BTC", act := "buy", value := mkRat 1 100, balance := 0 },
   { dttm := "10:00", coin := "R$", act := "buy", value := 500, balance := 0 },
   { dttm := "10:05", coin := "BTC", act := "withdraw", value := 0, balance := 0 },
   { dttm := "10:05", coin := "BTC", act := "withdrawal_fee", value := mkRat 1 10000, balance := 0 }]

/-- C9: the division at closure is guarded only by
`next_withdrawal_fee != 0`; when the captured withdrawal magnitude is `0`
and the captured fee is non-zero, the run aborts with a division-by-zero
error (Python's `ZeroDivisionError`). -/
theorem C9_division_by_zero :
    get_transactions_from_btctrd c9rows = .error .divisionByZero := by
  decide

/-! ## C8: permutation invariance -/

/-- Two withdraw rows sharing the full sort key `(dttm, act, coin)` but
carrying different magnitudes, in one order... -/
def c8A : List Row :=
  [{ dttm := "10:00", coin := "BTC", act := "buy", value := mkRat 1 100, balance := 0 },
   { dttm := "10:00", coin := "R$", act := "buy", value := 500, balance := 0 },
   { dttm := "10:05", coin := "BTC", act := "withdraw", value := mkRat 1 50, balance := 0 },
   { dttm := "10:05", coin := "BTC", act := "withdraw", value := mkRat 1 10000, balance := 0 }]

/-- ... and in the other order: the stable sort keeps the tie order, so the
lookahead pairs them differently. -/
def c8B : List Row :=
  [{ dttm := "10:00", coin := "BTC", act := "buy", value := mkRat 1 100, balance := 0 },
   { dttm := "10:00", coin := "R$", act := "buy", value := 500, balance := 0 },
   { dttm := "10:05", coin := "BTC", act := "withdraw", value := mkRat 1 10000, balance := 0 },
   { dttm := "10:05", coin := "BTC", act := "withdraw", value := mkRat 1 50, balance := 0 }]

/-- C8 counterexample: the two inputs are permutations of each other, yet
the engine returns different outputs — the engine's sort is stable, so rows
sharing the full sort key keep their input order, and the lookahead then
records different withdrawal/fee pairs. -/
theorem C8_permutation_counterexample :
    c8A.Perm c8B ∧
      get_transactions_from_btctrd c8A ≠ get_transactions_from_btctrd c8B := by
  constructor
  · decide
  · decide

/-! ## Order properties of the sort key -/

theorem charToNat_inj {a b : Char} (h : a.toNat = b.toNat) : a = b := by
  have hv : a.val = b.val := by
    unfold Char.toNat at h
    exact UInt32.toNat.inj h
  exact Char.eq_of_val_eq hv

theorem listLtB_irrefl : ∀ l : List Char, listLtB l l = false
  | [] => rfl
  | a :: as => by
    simp only [listLtB, lt_irrefl, if_false, listLtB_irrefl as, ite_self]

theorem listLtB_asymm : ∀ l₁ l₂ : List Char,
    listLtB l₁ l₂ = true → listLtB l₂ l₁ = false
  | l₁, [], h => by cases l₁ <;> simp [listLtB] at h
  | [], _ :: _, _ => by simp [listLtB]
  | a :: as, b :: bs, h => by
    simp only [listLtB] at h ⊢
    by_cases hab : a.toNat < b.toNat
    · have hba : ¬ b.toNat < a.toNat := by omega
      simp [hab, hba]
    · by_cases hba : b.toNat < a.toNat
      · simp [hab, hba] at h
      · simp only [hab, hba, if_false] at h ⊢
        exact listLtB_asymm as bs h

theorem listLtB_trans : ∀ l₁ l₂ l₃ : List Char,
    listLtB l₁ l₂ = true → listLtB l₂ l₃ = true → listLtB l₁ l₃ = true
  | l₁, l₂, [], _, h₂ => by cases l₂ <;> simp [listLtB] at h₂
  | l₁, [], _ :: _, h₁, _ => by cases l₁ <;> simp [listLtB] at h₁
  | [], _ :: _, _ :: _, _, _ => by simp [listLtB]
  | a :: as, b :: bs, c :: cs, h₁, h₂ => by
    simp only [listLtB] at h₁ h₂ ⊢
    by_cases hab : a.toNat < b.toNat
    · by_cases hbc : b.toNat < c.toNat
      · simp [show a.toNat < c.toNat from Nat.lt_trans hab hbc]
      · by_cases hcb : c.toNat < b.toNat
        · simp [hbc, hcb] at h₂
        · simp [show a.toNat < c.toNat by omega]
    · by_cases hba : b.toNat < a.toNat
      · simp [hab, hba] at h₁
      · simp only [hab, hba, if_false] at h₁
        by_cases hbc : b.toNat < c.toNat
        · simp [show a.toNat < c.toNat by omega]
        · by_cases hcb : c.toNat < b.toNat
          · simp [hbc, hcb] at h₂
          · simp only [hbc, hcb, if_false] at h₂
            have hac : ¬ a.toNat < c.toNat := by omega
            have hca : ¬ c.toNat < a.toNat := by omega
            simp only [hac, hca, if_false]
            exact listLtB_trans as bs cs h₁ h₂

theorem listLtB_connex : ∀ l₁ l₂ : List Char,
    listLtB l₁ l₂ = false → listLtB l₂ l₁ = false → l₁ = l₂
  | [], [], _, _ => rfl
  | [], _ :: _, h₁, _ => by simp [listLtB] at h₁
  | _ :: _, [], _, h₂ => by simp [listLtB] at h₂
  | a :: as, b :: bs, h₁, h₂ => by
    simp only [listLtB] at h₁ h₂
    by_cases hab : a.toNat < b.toNat
    · simp [hab] at h₁
    · by_cases hba : b.toNat < a.toNat
      · simp [hab, hba] at h₂
      · simp only [hab, hba, if_false] at h₁ h₂
        have hc : a = b := charToNat_inj (by omega)
        rw [hc, listLtB_connex as bs h₁ h₂]

theorem string_data_inj {a b : String} (h : a.data = b.data) : a = b := by
  cases a; cases b; simp_all

theorem strLtB_irrefl (a : String) : strLtB a a = false :=
  listLtB_irrefl a.data

theorem strLtB_asymm {a b : String} (h : strLtB a b = true) : strLtB b a = false :=
  listLtB_asymm a.data b.data h

theorem strLtB_trans {a b c : String} (h₁ : strLtB a b = true)
    (h₂ : strLtB b c = true) : strLtB a c = true :=
  listLtB_trans a.data b.data c.data h₁ h₂

theorem strLtB_connex {a b : String} (h₁ : strLtB a b = false)
    (h₂ : strLtB b a = false) : a = b :=
  string_data_inj (listLtB_connex a.data b.data h₁ h₂)

theorem keyLT_iff (a b : Row) : keyLT a b ↔
    strLtB a.dttm b.dttm = true ∨
      (a.dttm = b.dttm ∧ (strLtB a.act b.act = true ∨
        (a.act = b.act ∧ strLtB a.coin b.coin = true))) := by
  simp [keyLT, keyLTb, Bool.or_eq_true, Bool.and_eq_true, beq_iff_eq]

theorem keyLE_iff (a b : Row) : keyLE a b ↔
    keyLT a b ∨ rowKey a = rowKey b := by
  simp [keyLE, keyLEb, keyLT, rowKey, Bool.or_eq_true, Bool.and_eq_true,
    beq_iff_eq, Prod.ext_iff, and_assoc]

theorem rowKey_eq_iff (a b : Row) : rowKey a = rowKey b ↔
    a.dttm = b.dttm ∧ a.act = b.act ∧ a.coin = b.coin := by
  simp [rowKey, Prod.ext_iff]

theorem keyLT_trans {a b c : Row} (h₁ : keyLT a b) (h₂ : keyLT b c) :
    keyLT a c := by
  rw [keyLT_iff] at h₁ h₂ ⊢
  rcases h₁ with h₁ | ⟨hd₁, h₁⟩
  · rcases h₂ with h₂ | ⟨hd₂, _⟩
    · exact Or.inl (strLtB_trans h₁ h₂)
    · exact Or.inl (hd₂ ▸ h₁)
  · rcases h₂ with h₂ | ⟨hd₂, h₂⟩
    · exact Or.inl (hd₁ ▸ h₂)
    · refine Or.inr ⟨hd₁.trans hd₂, ?_⟩
      rcases h₁ with h₁ | ⟨ha₁, h₁⟩
      · rcases h₂ with h₂ | ⟨ha₂, _⟩
        · exact Or.inl (strLtB_trans h₁ h₂)
        · exact Or.inl (ha₂ ▸ h₁)
      · rcases h₂ with h₂ | ⟨ha₂, h₂⟩
        · exact Or.inl (ha₁ ▸ h₂)
        · exact Or.inr ⟨ha₁.trans ha₂, strLtB_trans h₁ h₂⟩

theorem keyLT_irrefl (a : Row) : ¬ keyLT a a := by
  rw [keyLT_iff]
  rintro (h | ⟨_, h | ⟨_, h⟩⟩) <;> simp [strLtB_irrefl] at h

theorem keyLT_asymm {a b : Row} (h₁ : keyLT a b) (h₂ : keyLT b a) : False :=
  keyLT_irrefl a (keyLT_trans h₁ h₂)

theorem strLtB_trichotomy (a b : String) :
    strLtB a b = true ∨ a = b ∨ strLtB b a = true := by
  by_cases h₁ : strLtB a b = true
  · exact Or.inl h₁
  · by_cases h₂ : strLtB b a = true
    · exact Or.inr (Or.inr h₂)
    · exact Or.inr (Or.inl (strLtB_connex (by simpa using h₁) (by simpa using h₂)))

theorem keyLE_total (a b : Row) : keyLE a b ∨ keyLE b a := by
  rw [keyLE_iff, keyLE_iff, keyLT_iff, keyLT_iff, rowKey_eq_iff, rowKey_eq_iff]
  rcases strLtB_trichotomy a.dttm b.dttm with h | h | h
  · tauto
  · rcases strLtB_trichotomy a.act b.act with h' | h' | h'
    · tauto
    · rcases strLtB_trichotomy a.coin b.coin with h'' | h'' | h'' <;> tauto
    · tauto
  · tauto

theorem keyLE_trans {a b c : Row} (h₁ : keyLE a b) (h₂ : keyLE b c) :
    keyLE a c := by
  rw [keyLE_iff] at h₁ h₂ ⊢
  rcases h₁ with h₁ | h₁ <;> rcases h₂ with h₂ | h₂
  · exact Or.inl (keyLT_trans h₁ h₂)
  · rw [rowKey_eq_iff] at h₂
    rw [keyLT_iff] at h₁ ⊢
    obtain ⟨e₁, e₂, e₃⟩ := h₂
    rw [e₁, e₂, e₃] at h₁
    exact Or.inl h₁
  · rw [rowKey_eq_iff] at h₁
    rw [keyLT_iff] at h₂ ⊢
    obtain ⟨e₁, e₂, e₃⟩ := h₁
    rw [← e₁, ← e₂, ← e₃] at h₂
    exact Or.inl h₂
  · exact Or.inr (h₁.trans h₂)

instance : IsTotal Row keyLE := ⟨keyLE_total⟩

instance : IsTrans Row keyLE := ⟨fun _ _ _ => keyLE_trans⟩

instance : IsAntisymm Row keyLT := ⟨fun _ _ h₁ h₂ => absurd h₂ (fun h => keyLT_asymm h₁ h)⟩

theorem sorted_keyLT_of_sorted_keyLE {l : List Row}
    (hs : l.Sorted keyLE) (hnd : (l.map rowKey).Nodup) : l.Sorted keyLT := by
  have hpne : l.Pairwise (fun a b => rowKey a ≠ rowKey b) :=
    (List.pairwise_map).mp hnd
  have := hs.and hpne
  exact this.imp (fun {a b} h => by
    rcases (keyLE_iff a b).mp h.1 with h' | h'
    · exact h'
    · exact absurd h' h.2)

/-- The engine sorts its input itself (line 112), so two inputs with the
same row multiset and pairwise-distinct sort keys sort identically. -/
theorem sortRows_eq_of_perm {L₁ L₂ : List Row} (hperm : L₁.Perm L₂)
    (hnd : (L₁.map rowKey).Nodup) : sortRows L₁ = sortRows L₂ := by
  have hp : (sortRows L₁).Perm (sortRows L₂) :=
    (List.perm_insertionSort keyLE L₁).trans
      (hperm.trans (List.perm_insertionSort keyLE L₂).symm)
  have hnd₁ : ((sortRows L₁).map rowKey).Nodup :=
    (((List.perm_insertionSort keyLE L₁).map rowKey).nodup_iff).mpr hnd
  have hnd₂ : ((sortRows L₂).map rowKey).Nodup :=
    ((hp.map rowKey).nodup_iff).mp hnd₁
  exact List.eq_of_perm_of_sorted hp
    (sorted_keyLT_of_sorted_keyLE (List.sorted_insertionSort keyLE L₁) hnd₁)
    (sorted_keyLT_of_sorted_keyLE (List.sorted_insertionSort keyLE L₂) hnd₂)

/-- C8 (amended): the engine's result depends only on the multiset of input
rows *provided* all rows carry pairwise-distinct `(dttm, act, coin)` sort
keys; rows sharing the full key keep their input order under the stable
sort, and the output may then differ (see the counterexample). -/
theorem C8_permutation_invariance_amended (tol : ℚ) {L₁ L₂ : List Row}
    (hperm : L₁.Perm L₂) (hnd : (L₁.map rowKey).Nodup) :
    get_transactions_from_btctrd L₁ tol = get_transactions_from_btctrd L₂ tol := by
  unfold get_transactions_from_btctrd
  rw [sortRows_eq_of_perm hperm hnd]

/-- Witness for the amended C8: a five-row input with pairwise-distinct keys
reversed gives the same output. -/
theorem C8_permutation_invariance_witness :
    get_transactions_from_btctrd (c2rows.reverse) (mkRat 9 100000000) =
      get_transactions_from_btctrd c2rows (mkRat 9 100000000) :=
  C8_permutation_invariance_amended (mkRat 9 100000000)
    (by decide) (by decide)

/-! ## C7: a lone buy event is silently dropped -/

/-- C7: an input consisting of a single `buy` event produces zero output
records and no error: the unclosed group is dropped at end of stream. -/
theorem C7_lone_buy_dropped (row : Row) (tol : ℚ) (h : row.act = "buy") :
    get_transactions_from_btctrd [row] tol = .ok [] := by
  obtain ⟨d, c, a, v, bal⟩ := row
  simp only at h
  subst h
  unfold get_transactions_from_btctrd
  have hsort : sortRows [(⟨d, c, "buy", v, bal⟩ : Row)] = [⟨d, c, "buy", v, bal⟩] := rfl
  rw [hsort]
  have hbb : strStartsWith "buy" "buy" = true := rfl
  have hbf : (("buy" : String) == "buying_fee") = false := rfl
  have hwb : strStartsWith "buy" "withdraw" = false := rfl
  by_cases hc : c = "R$"
  · subst hc
    by_cases hv : qAbs v > tol <;>
      simp [runRows, stepRow, preClose, coinCheckStep, lookaheadStep, accumStep,
        closeStep, hbb, hbf, hwb, hv, initG]
  · by_cases hv : qAbs v > tol <;>
      simp [runRows, stepRow, preClose, coinCheckStep, lookaheadStep, accumStep,
        closeStep, hbb, hbf, hwb, hv, hc, initG, List.filter]

/-- Witness for C7 at a concrete lone buy event. -/
theorem C7_lone_buy_witness :
    get_transactions_from_btctrd
      [{ dttm := "10:00", coin := "BTC", act := "buy", value := mkRat 1 100, balance := 0 }]
      (mkRat 9 100000000) = .ok [] :=
  C7_lone_buy_dropped
    { dttm := "10:00", coin := "BTC", act := "buy", value := mkRat 1 100, balance := 0 }
    (mkRat 9 100000000) rfl

/-! ## C1: when does the boundary test run? -/

/-- Modelled from the spec (the reading of C1): the boundary test is
evaluated after processing every event; events that are not buy-prefixed
leave the accumulator unchanged but the close check still runs. -/
def stepRowSpecC1 (row : Row) (rest : List Row) (s : GState) (val_tol : ℚ) :
    Except EngErr (GState × Option RawTrans) :=
  if strStartsWith row.act "buy" then
    match preClose row rest s val_tol with
    | .error e => .error e
    | .ok u => closeStep row (rest.head?.map Row.dttm) u
  else closeStep row (rest.head?.map Row.dttm) s

/-- Modelled from the spec: the loop of the C1 reading. -/
def runRowsSpecC1 (rows : List Row) (s : GState) (val_tol : ℚ) :
    Except EngErr (List RawTrans) :=
  match rows with
  | [] => .ok []
  | row :: rest =>
    match stepRowSpecC1 row rest s val_tol with
    | .error e => .error e
    | .ok (s', o) =>
      match runRowsSpecC1 rest s' val_tol with
      | .error e => .error e
      | .ok ts => .ok (match o with | some t => t :: ts | none => ts)

/-- Modelled from the spec: the engine under the C1 reading. -/
def reconcileSpecC1 (data_rows : List Row) (val_tol : ℚ := mkRat 9 100000000) :
    Except EngErr (List TransDoc) :=
  match runRowsSpecC1 (sortRows data_rows) initG val_tol with
  | .error e => .error e
  | .ok ts => .ok (ts.map prepare_transaction_doc)

/-- A same-instant group whose last row is a `withdraw`. -/
def c1rows : List Row :=
  [{ dttm := "10:00", coin := "BTC", act := "buy", value := mkRat 1 100, balance := 0 },
   { dttm := "10:00", coin := "R$", act := "buy", value := 500, balance := 0 },
   { dttm := "10:00", coin := "BTC", act := "withdraw", value := mkRat 1 100, balance := 0 }]

theorem C1_boundary_counterexample :
    reconcileSpecC1 c1rows =
      .ok [{ source := "btctrd", datetime := "10:00", pair := "BTCBRL",
             ticker := "BTC", qty := mkRat 1 100, total := 500,
             total_ticker := "BRL", fee := 0, fee_ticker := "BTC",
             mov_fee := 0, mov_ticker := "BTC" }] ∧
    get_transactions_from_btctrd c1rows = .ok [] ∧
    reconcileSpecC1 c1rows ≠ get_transactions_from_btctrd c1rows := by
  refine ⟨by decide, by decide, by decide⟩

theorem C1_boundary_amended (row : Row) (rest : List Row) (s : GState)
    (tol : ℚ) (s' : GState) (o : Option RawTrans)
    (hstep : stepRow row rest s tol = .ok (s', o)) :
    o.isSome = true ↔
      (strStartsWith row.act "buy" = true ∧
        ∃ u, preClose row rest s tol = .ok u ∧
          (rest.head?.map Row.dttm ≠ some row.dttm ∧
            0 < u.n_coin ∧ u.n_coin = u.n_fiat)) := by
  unfold stepRow at hstep
  by_cases hb : strStartsWith row.act "buy" = true
  · rw [if_pos hb] at hstep
    cases hpc : preClose row rest s tol with
    | error e => rw [hpc] at hstep; exact absurd hstep (by simp)
    | ok u =>
      rw [hpc] at hstep
      unfold closeStep at hstep
      dsimp only at hstep
      by_cases hcond : rest.head?.map Row.dttm ≠ some row.dttm ∧
          0 < u.n_coin ∧ u.n_coin = u.n_fiat
      · rw [if_pos hcond] at hstep
        constructor
        · intro _; exact ⟨hb, u, rfl, hcond⟩
        · intro _
          by_cases hfee : u.next_withdrawal_fee ≠ 0
          · rw [if_pos hfee] at hstep
            by_cases hwd : u.next_withdrawal = 0
            · rw [if_pos hwd] at hstep; exact absurd hstep (by simp)
            · rw [if_neg hwd] at hstep
              simp only [Except.ok.injEq, Prod.mk.injEq] at hstep
              rw [← hstep.2]; rfl
          · rw [if_neg hfee] at hstep
            simp only [Except.ok.injEq, Prod.mk.injEq] at hstep
            rw [← hstep.2]; rfl
      · rw [if_neg hcond] at hstep
        simp only [Except.ok.injEq, Prod.mk.injEq] at hstep
        constructor
        · intro ho; rw [← hstep.2] at ho; exact absurd ho (by simp)
        · rintro ⟨_, u', hpc', hcond'⟩
          cases hpc'
          exact absurd hcond' hcond
  · rw [if_neg hb] at hstep
    simp only [Except.ok.injEq, Prod.mk.injEq] at hstep
    constructor
    · intro ho; rw [← hstep.2] at ho; exact absurd ho (by simp)
    · rintro ⟨hb', _⟩; exact absurd hb' hb

def c1wRow : Row :=
  { dttm := "10:00", coin := "BTC", act := "buy", value := mkRat 1 100, balance := 0 }

def c1wState : GState :=
  { initG with paid_value := 500, n_fiat := 1 }

def c1wTrans : RawTrans :=
  { dttm := "10:00", coin := some "BTC", value := mkRat 1 100, paid_value := 500,
    buying_fee := 0, withd := 0, n_coin := 1, n_fiat := 1,
    next_withdrawal := 0, next_withdrawal_fee := 0 }

theorem C1_boundary_witness :
    (some c1wTrans).isSome = true ↔
      (strStartsWith c1wRow.act "buy" = true ∧
        ∃ u, preClose c1wRow [] c1wState (mkRat 9 100000000) = .ok u ∧
          ((([] : List Row).head?).map Row.dttm ≠ some c1wRow.dttm ∧
            0 < u.n_coin ∧ u.n_coin = u.n_fiat)) :=
  C1_boundary_amended c1wRow [] c1wState (mkRat 9 100000000) initG
    (some c1wTrans) (by decide)

/-! ## C3: the lookahead step -/

/-- The pair the engine keeps as its most recent lookahead result after a
step: read from the emitted snapshot when the step closed the group, else
from the resulting accumulator. -/
def recordedLA : GState × Option RawTrans → ℚ × ℚ
  | (_, some t) => (t.next_withdrawal, t.next_withdrawal_fee)
  | (s', none) => (s'.next_withdrawal, s'.next_withdrawal_fee)

theorem accumStep_preserves_lookahead (row : Row) (s : GState) (tol : ℚ)
    (s₂ : GState) (h : accumStep row s tol = .ok s₂) :
    s₂.next_withdrawal = s.next_withdrawal ∧
      s₂.next_withdrawal_fee = s.next_withdrawal_fee := by
  unfold accumStep at h
  split_ifs at h <;> simp only [Except.ok.injEq] at h <;> subst h <;> exact ⟨rfl, rfl⟩

theorem closeStep_recorded (row : Row) (nd : Option String) (u : GState)
    (res : GState × Option RawTrans) (h : closeStep row nd u = .ok res) :
    recordedLA res = (u.next_withdrawal, u.next_withdrawal_fee) := by
  unfold closeStep at h
  split_ifs at h <;> (try dsimp only at h) <;> (cases h; rfl)

theorem lookaheadStep_chars (row : Row) (slice : List Row) (s₁ : GState)
    (hbound : ¬ s₁.coin = none) :
    ((lookaheadStep row slice s₁).next_withdrawal,
      (lookaheadStep row slice s₁).next_withdrawal_fee) =
      match slice.filter
          (fun r => strStartsWith r.act "withdraw" && r.coin == row.coin) with
      | [] => (s₁.next_withdrawal, s₁.next_withdrawal_fee)
      | w :: tl =>
        (qAbs w.value, match tl with | [] => 0 | wf :: _ => qAbs wf.value) := by
  unfold lookaheadStep
  rw [if_neg hbound]
  cases slice.filter (fun r => strStartsWith r.act "withdraw" && r.coin == row.coin) with
  | nil => rfl
  | cons w tl => cases tl <;> rfl

/-- C3 (amended): on a buy-prefixed event processed while the group's coin
is bound (after the coin-binding of the current row), the engine's recorded
lookahead pair is determined by filtering the remaining rows (current row
included) for categories starting with `"withdraw"` in the *current row's*
coin: the first match's magnitude is the implied withdrawal amount and the
second match's (or `0`) the implied fee; when there is no match the
previous recording is kept. -/
theorem C3_lookahead_amended (row : Row) (rest : List Row) (s s₁ : GState)
    (tol : ℚ) (res : GState × Option RawTrans)
    (hb : strStartsWith row.act "buy" = true)
    (hcc : coinCheckStep row s = .ok s₁) (hbound : ¬ s₁.coin = none)
    (hstep : stepRow row rest s tol = .ok res) :
    recordedLA res =
      match (row :: rest).filter
          (fun r => strStartsWith r.act "withdraw" && r.coin == row.coin) with
      | [] => (s₁.next_withdrawal, s₁.next_withdrawal_fee)
      | w :: tl =>
        (qAbs w.value, match tl with | [] => 0 | wf :: _ => qAbs wf.value) := by
  unfold stepRow at hstep
  rw [if_pos hb] at hstep
  unfold preClose at hstep
  rw [hcc] at hstep
  dsimp only at hstep
  cases hacc : accumStep row (lookaheadStep row (row :: rest) s₁) tol with
  | error e => rw [hacc] at hstep; exact absurd hstep (by simp)
  | ok u =>
    rw [hacc] at hstep
    dsimp only at hstep
    have hpres := accumStep_preserves_lookahead row _ tol u hacc
    have hrec := closeStep_recorded row (rest.head?.map Row.dttm) u res hstep
    rw [hrec, hpres.1, hpres.2]
    exact lookaheadStep_chars row (row :: rest) s₁ hbound

/-- The current event while the group is bound to BTC: an orphan
`withdrawal_fee` precedes the `withdraw`/`withdrawal_fee` pair. -/
def c3row : Row :=
  { dttm := "10:00", coin := "BTC", act := "buy", value := mkRat 1 100, balance := 0 }

def c3rest : List Row :=
  [{ dttm := "10:00", coin := "R$", act := "buy", value := 500, balance := 0 },
   { dttm := "10:05", coin := "BTC", act := "withdrawal_fee", value := mkRat 3 10000, balance := 0 },
   { dttm := "10:10", coin := "BTC", act := "withdraw", value := mkRat 1 50, balance := 0 },
   { dttm := "10:10", coin := "BTC", act := "withdrawal_fee", value := mkRat 1 10000, balance := 0 }]

/-- Modelled from the spec (the reading of C3): scan forward for the first
event of category `withdraw` in the bound coin and, if present, take the
event immediately following it when it is a `withdrawal_fee` of the bound
coin; the magnitudes form the (amount, fee) pair. -/
def specLookahead (boundCoin : String) : List Row → Option (ℚ × ℚ)
  | [] => none
  | r :: rest =>
    if r.act == "withdraw" && r.coin == boundCoin then
      some (qAbs r.value,
        match rest with
        | [] => 0
        | f :: _ =>
          if f.act == "withdrawal_fee" && f.coin == boundCoin then qAbs f.value
          else 0)
    else specLookahead boundCoin rest

/-- The state the engine actually reaches on `c3row`: the orphan fee's
magnitude lands in `next_withdrawal` and the withdraw's magnitude in
`next_withdrawal_fee`. -/
def c3state : GState :=
  { coin := some "BTC", value := mkRat 1 100, paid_value := 0, buying_fee := 0,
    n_coin := 1, n_fiat := 0, next_withdrawal := mkRat 3 10000,
    next_withdrawal_fee := mkRat 1 50 }

/-- C3 counterexample: the engine filters on categories *starting with*
`"withdraw"` (so an orphan `withdrawal_fee` is picked up as the "withdraw")
and on the current row's coin, not the spec's first-`withdraw`-then-adjacent
`withdrawal_fee` rule; the recorded pair differs from the spec's. -/
theorem C3_lookahead_counterexample :
    stepRow c3row c3rest initG (mkRat 9 100000000) = .ok (c3state, none) ∧
    specLookahead "BTC" (c3row :: c3rest) = some (mkRat 1 50, mkRat 1 10000) ∧
    (c3state.next_withdrawal, c3state.next_withdrawal_fee) ≠
      (mkRat 1 50, mkRat 1 10000) := by
  refine ⟨by decide, by decide, by decide⟩

def c3wRest : List Row :=
  [{ dttm := "10:05", coin := "BTC", act := "withdraw", value := mkRat 1 50, balance := 0 }]

def c3wS1 : GState := { initG with coin := some "BTC" }

def c3wState : GState :=
  { coin := some "BTC", value := mkRat 1 100, paid_value := 0, buying_fee := 0,
    n_coin := 1, n_fiat := 0, next_withdrawal := mkRat 1 50,
    next_withdrawal_fee := 0 }

theorem C3_lookahead_witness :
    recordedLA (c3wState, none) =
      match (c3row :: c3wRest).filter
          (fun r => strStartsWith r.act "withdraw" && r.coin == c3row.coin) with
      | [] => (c3wS1.next_withdrawal, c3wS1.next_withdrawal_fee)
      | w :: tl =>
        (qAbs w.value, match tl with | [] => 0 | wf :: _ => qAbs wf.value) :=
  C3_lookahead_amended c3row c3wRest initG c3wS1 (mkRat 9 100000000)
    (c3wState, none) (by decide) (by decide) (by decide) (by decide)

/-! ## C10: non-negativity of emitted amounts -/

theorem qAbs_nonneg (a : ℚ) : 0 ≤ qAbs a := by
  rw [qAbs_eq]; exact abs_nonneg a

theorem qAdd_nonneg {a b : ℚ} (ha : 0 ≤ a) (hb : 0 ≤ b) : 0 ≤ qAdd a b := by
  rw [qAdd_eq]; exact add_nonneg ha hb

theorem qMul_nonneg {a b : ℚ} (ha : 0 ≤ a) (hb : 0 ≤ b) : 0 ≤ qMul a b := by
  rw [qMul_eq]; exact mul_nonneg ha hb

theorem qDiv_nonneg {a b : ℚ} (ha : 0 ≤ a) (hb : 0 ≤ b) : 0 ≤ qDiv a b := by
  rw [qDiv_eq]; exact div_nonneg ha hb

/-- All rational entries of the accumulator are non-negative. -/
def NonnegState (s : GState) : Prop :=
  0 ≤ s.value ∧ 0 ≤ s.paid_value ∧ 0 ≤ s.buying_fee ∧
    0 ≤ s.next_withdrawal ∧ 0 ≤ s.next_withdrawal_fee

theorem initG_nonneg : NonnegState initG :=
  ⟨le_refl 0, le_refl 0, le_refl 0, le_refl 0, le_refl 0⟩

theorem coinCheckStep_nonneg {row : Row} {s s₁ : GState}
    (h : coinCheckStep row s = .ok s₁) (hs : NonnegState s) : NonnegState s₁ := by
  unfold coinCheckStep at h
  split_ifs at h
  · cases h; exact hs
  · cases hc : s.coin with
    | none => rw [hc] at h; dsimp only at h; cases h; exact hs
    | some c =>
      rw [hc] at h
      dsimp only at h
      split_ifs at h
      cases h; exact hs

theorem lookaheadStep_nonneg {row : Row} {slice : List Row} {s : GState}
    (hs : NonnegState s) : NonnegState (lookaheadStep row slice s) := by
  unfold lookaheadStep
  split_ifs
  · exact hs
  · cases hf : slice.filter (fun r => strStartsWith r.act "withdraw" && r.coin == row.coin) with
    | nil => exact hs
    | cons w tl =>
      cases tl with
      | nil => exact ⟨hs.1, hs.2.1, hs.2.2.1, qAbs_nonneg _, le_refl 0⟩
      | cons wf tl' => exact ⟨hs.1, hs.2.1, hs.2.2.1, qAbs_nonneg _, qAbs_nonneg _⟩

theorem accumStep_nonneg {row : Row} {s s₂ : GState} {tol : ℚ}
    (h : accumStep row s tol = .ok s₂) (hs : NonnegState s) : NonnegState s₂ := by
  unfold accumStep at h
  dsimp only at h
  obtain ⟨h1, h2, h3, h4, h5⟩ := hs
  split_ifs at h <;> cases h <;>
    refine ⟨?_, ?_, ?_, ?_, ?_⟩ <;>
      first
        | assumption
        | exact qAdd_nonneg h1 (qAbs_nonneg _)
        | exact qAdd_nonneg h2 (qAbs_nonneg _)
        | exact qAdd_nonneg h3 (qAbs_nonneg _)

theorem closeStep_nonneg {row : Row} {nd : Option String} {u : GState}
    {s' : GState} {o : Option RawTrans}
    (h : closeStep row nd u = .ok (s', o)) (hu : NonnegState u) :
    NonnegState s' ∧ ∀ t, o = some t →
      0 ≤ t.value ∧ 0 ≤ t.paid_value ∧ 0 ≤ t.buying_fee ∧ 0 ≤ t.withd := by
  obtain ⟨h1, h2, h3, h4, h5⟩ := hu
  unfold closeStep at h
  split_ifs at h <;> (try dsimp only at h) <;> cases h
  · exact ⟨initG_nonneg, fun t ht => by
      cases ht
      exact ⟨h1, h2, h3, qMul_nonneg h1 (qDiv_nonneg h5 h4)⟩⟩
  · exact ⟨initG_nonneg, fun t ht => by
      cases ht
      exact ⟨h1, h2, h3, le_refl 0⟩⟩
  · exact ⟨⟨h1, h2, h3, h4, h5⟩, fun t ht => by cases ht⟩

theorem stepRow_nonneg {row : Row} {rest : List Row} {s : GState} {tol : ℚ}
    {s' : GState} {o : Option RawTrans}
    (h : stepRow row rest s tol = .ok (s', o)) (hs : NonnegState s) :
    NonnegState s' ∧ ∀ t, o = some t →
      0 ≤ t.value ∧ 0 ≤ t.paid_value ∧ 0 ≤ t.buying_fee ∧ 0 ≤ t.withd := by
  unfold stepRow at h
  split_ifs at h
  · unfold preClose at h
    cases hcc : coinCheckStep row s with
    | error e => rw [hcc] at h; exact absurd h (by simp)
    | ok s₁ =>
      rw [hcc] at h
      dsimp only at h
      cases hacc : accumStep row (lookaheadStep row (row :: rest) s₁) tol with
      | error e => rw [hacc] at h; exact absurd h (by simp)
      | ok u =>
        rw [hacc] at h
        dsimp only at h
        exact closeStep_nonneg h
          (accumStep_nonneg hacc
            (lookaheadStep_nonneg (coinCheckStep_nonneg hcc hs)))
  · cases h
    exact ⟨hs, fun t ht => by cases ht⟩

theorem runRows_nonneg : ∀ (rows : List Row) (s : GState) (tol : ℚ)
    (ts : List RawTrans), runRows rows s tol = .ok ts → NonnegState s →
    ∀ t ∈ ts, 0 ≤ t.value ∧ 0 ≤ t.paid_value ∧ 0 ≤ t.buying_fee ∧ 0 ≤ t.withd
  | [], _, _, ts, h, _ => by
    unfold runRows at h
    cases h
    intro t ht
    cases ht
  | row :: rest, s, tol, ts, h, hs => by
    unfold runRows at h
    cases hstep : stepRow row rest s tol with
    | error e => rw [hstep] at h; exact absurd h (by simp)
    | ok p =>
      obtain ⟨s', o⟩ := p
      rw [hstep] at h
      dsimp only at h
      cases hrun : runRows rest s' tol with
      | error e => rw [hrun] at h; exact absurd h (by simp)
      | ok ts' =>
        rw [hrun] at h
        dsimp only at h
        obtain ⟨hs', hemit⟩ := stepRow_nonneg hstep hs
        have ih := runRows_nonneg rest s' tol ts' hrun hs'
        cases o with
        | none => cases h; exact ih
        | some t0 =>
          cases h
          intro t ht
          rcases List.mem_cons.mp ht with rfl | ht'
          · exact hemit t rfl
          · exact ih t ht'

/-- C10: on every run that completes without error, each emitted record has
non-negative `qty`, `total`, `fee` and `mov_fee`: the engine accumulates
absolute magnitudes and the withdrawal multiplier is a ratio of absolute
magnitudes. -/
theorem C10_nonnegative_outputs (rows : List Row) (tol : ℚ)
    (out : List TransDoc) (h : get_transactions_from_btctrd rows tol = .ok out) :
    ∀ d ∈ out, 0 ≤ d.qty ∧ 0 ≤ d.total ∧ 0 ≤ d.fee ∧ 0 ≤ d.mov_fee := by
  unfold get_transactions_from_btctrd at h
  cases hrun : runRows (sortRows rows) initG tol with
  | error e => rw [hrun] at h; exact absurd h (by simp)
  | ok ts =>
    rw [hrun] at h
    dsimp only at h
    cases h
    intro d hd
    obtain ⟨t, ht, rfl⟩ := List.mem_map.mp hd
    obtain ⟨hv, hp, hb, hw⟩ := runRows_nonneg (sortRows rows) initG tol ts hrun initG_nonneg t ht
    exact ⟨hv, hp, hb, hw⟩

/-- The record the engine emits on the example scenario. -/
def c2out : TransDoc :=
  { source := "btctrd", datetime := "10:00", pair := "BTCBRL",
    ticker := "BTC", qty := mkRat 1 100, total := 500, total_ticker := "BRL",
    fee := mkRat 1 20000, fee_ticker := "BTC", mov_fee := mkRat 1 10000,
    mov_ticker := "BTC" }

/-- Witness for C10 on the example scenario's output record. -/
theorem C10_nonnegative_witness :
    0 ≤ c2out.qty ∧ 0 ≤ c2out.total ∧ 0 ≤ c2out.fee ∧ 0 ≤ c2out.mov_fee :=
  C10_nonnegative_outputs c2rows (mkRat 9 100000000) [c2out] (by decide)
    c2out (List.mem_cons_self c2out [])

/-! ## C4: conservation of qty and total -/

/-- The magnitude a row contributes to the group's coin amount. -/
def coinDelta (r : Row) : ℚ :=
  if r.act == "buy" && !(r.coin == "R$") then qAbs r.value else 0

/-- The magnitude a row contributes to the group's fiat amount. -/
def fiatDelta (r : Row) : ℚ :=
  if r.act == "buy" && (r.coin == "R$") then qAbs r.value else 0

/-- Sum of magnitudes of the coin-denominated `buy` rows of a group. -/
def coinSum (g : List Row) : ℚ :=
  ((g.filter (fun r => r.act == "buy" && !(r.coin == "R$"))).map
    (fun r => qAbs r.value)).sum

/-- Sum of magnitudes of the fiat-denominated `buy` rows of a group. -/
def fiatSum (g : List Row) : ℚ :=
  ((g.filter (fun r => r.act == "buy" && (r.coin == "R$"))).map
    (fun r => qAbs r.value)).sum

theorem coinSum_append_single (g : List Row) (r : Row) :
    coinSum (g ++ [r]) = coinSum g + coinDelta r := by
  unfold coinSum coinDelta
  rw [List.filter_append, List.map_append, List.sum_append]
  cases hp : (r.act == "buy" && !(r.coin == "R$")) <;>
    simp [List.filter, hp]

theorem fiatSum_append_single (g : List Row) (r : Row) :
    fiatSum (g ++ [r]) = fiatSum g + fiatDelta r := by
  unfold fiatSum fiatDelta
  rw [List.filter_append, List.map_append, List.sum_append]
  cases hp : (r.act == "buy" && (r.coin == "R$")) <;>
    simp [List.filter, hp]

theorem coinCheckStep_amounts {row : Row} {s s₁ : GState}
    (h : coinCheckStep row s = .ok s₁) :
    s₁.value = s.value ∧ s₁.paid_value = s.paid_value := by
  unfold coinCheckStep at h
  split_ifs at h
  · cases h; exact ⟨rfl, rfl⟩
  · cases hc : s.coin with
    | none => rw [hc] at h; dsimp only at h; cases h; exact ⟨rfl, rfl⟩
    | some c =>
      rw [hc] at h
      dsimp only at h
      split_ifs at h
      cases h; exact ⟨rfl, rfl⟩

theorem lookaheadStep_amounts (row : Row) (slice : List Row) (s : GState) :
    (lookaheadStep row slice s).value = s.value ∧
      (lookaheadStep row slice s).paid_value = s.paid_value := by
  unfold lookaheadStep
  split_ifs
  · exact ⟨rfl, rfl⟩
  · cases slice.filter (fun r => strStartsWith r.act "withdraw" && r.coin == row.coin) with
    | nil => exact ⟨rfl, rfl⟩
    | cons w tl => cases tl <;> exact ⟨rfl, rfl⟩

theorem accumStep_amounts {row : Row} {s s₂ : GState} {tol : ℚ}
    (h : accumStep row s tol = .ok s₂) :
    s₂.value = s.value + coinDelta row ∧
      s₂.paid_value = s.paid_value + fiatDelta row := by
  unfold accumStep at h
  dsimp only at h
  unfold coinDelta fiatDelta
  split_ifs at h <;> (try cases h) <;> simp_all [qAdd_eq]

theorem notBuy_of_not_startsWith {a : String}
    (hb : strStartsWith a "buy" = false) : (a == "buy") = false := by
  by_cases ha : a = "buy"
  · subst ha; exact absurd hb (by decide)
  · exact beq_eq_false_iff_ne.mpr ha

theorem closeStep_amounts {row : Row} {nd : Option String} {u : GState}
    {s' : GState} {o : Option RawTrans} (h : closeStep row nd u = .ok (s', o)) :
    (o = none ∧ s' = u) ∨
      (∃ t, o = some t ∧ t.value = u.value ∧ t.paid_value = u.paid_value ∧
        s' = initG) := by
  unfold closeStep at h
  split_ifs at h <;> (try dsimp only at h) <;> cases h
  · exact Or.inr ⟨_, rfl, rfl, rfl, rfl⟩
  · exact Or.inr ⟨_, rfl, rfl, rfl, rfl⟩
  · exact Or.inl ⟨rfl, rfl⟩

theorem stepRow_amounts {row : Row} {rest : List Row} {s : GState} {tol : ℚ}
    {s' : GState} {o : Option RawTrans}
    (h : stepRow row rest s tol = .ok (s', o)) :
    (o = none ∧ s'.value = s.value + coinDelta row ∧
      s'.paid_value = s.paid_value + fiatDelta row) ∨
    (∃ t, o = some t ∧ t.value = s.value + coinDelta row ∧
      t.paid_value = s.paid_value + fiatDelta row ∧ s' = initG) := by
  unfold stepRow at h
  by_cases hb : strStartsWith row.act "buy" = true
  · rw [if_pos hb] at h
    unfold preClose at h
    cases hcc : coinCheckStep row s with
    | error e => rw [hcc] at h; exact absurd h (by simp)
    | ok s₁ =>
      rw [hcc] at h
      dsimp only at h
      cases hacc : accumStep row (lookaheadStep row (row :: rest) s₁) tol with
      | error e => rw [hacc] at h; exact absurd h (by simp)
      | ok u =>
        rw [hacc] at h
        dsimp only at h
        obtain ⟨hcv, hcp⟩ := coinCheckStep_amounts hcc
        obtain ⟨hlv, hlp⟩ := lookaheadStep_amounts row (row :: rest) s₁
        obtain ⟨hav, hap⟩ := accumStep_amounts hacc
        have huv : u.value = s.value + coinDelta row := by
          rw [hav, hlv, hcv]
        have hup : u.paid_value = s.paid_value + fiatDelta row := by
          rw [hap, hlp, hcp]
        rcases closeStep_amounts h with ⟨ho, hs'⟩ | ⟨t, ho, htv, htp, hs'⟩
        · exact Or.inl ⟨ho, hs' ▸ huv, hs' ▸ hup⟩
        · exact Or.inr ⟨t, ho, htv.trans huv, htp.trans hup, hs'⟩
  · rw [if_neg hb] at h
    cases h
    have hnb : (row.act == "buy") = false :=
      notBuy_of_not_startsWith (by simpa using hb)
    refine Or.inl ⟨rfl, ?_, ?_⟩ <;> simp [coinDelta, fiatDelta, hnb]

/-- Ghost-instrumented loop: identical to `runRows` but each emitted
snapshot is paired with the list of rows processed since the previous
emission (the rows assigned to that group, the closing row included). -/
def runRowsT (rows : List Row) (s : GState) (grp : List Row) (val_tol : ℚ) :
    Except EngErr (List (RawTrans × List Row)) :=
  match rows with
  | [] => .ok []
  | row :: rest =>
    match stepRow row rest s val_tol with
    | .error e => .error e
    | .ok (s', o) =>
      match o with
      | some t =>
        match runRowsT rest s' [] val_tol with
        | .error e => .error e
        | .ok ts => .ok ((t, grp ++ [row]) :: ts)
      | none =>
        match runRowsT rest s' (grp ++ [row]) val_tol with
        | .error e => .error e
        | .ok ts => .ok ts

/-- Erasing the ghost group lists from `runRowsT` gives back `runRows`. -/
theorem runRowsT_fst : ∀ (rows : List Row) (s : GState) (grp : List Row)
    (tol : ℚ), runRows rows s tol =
      (runRowsT rows s grp tol).map (List.map Prod.fst)
  | [], s, grp, tol => rfl
  | row :: rest, s, grp, tol => by
    unfold runRows runRowsT
    cases hstep : stepRow row rest s tol with
    | error e => rfl
    | ok p =>
      obtain ⟨s', o⟩ := p
      dsimp only
      cases o with
      | some t =>
        rw [runRowsT_fst rest s' [] tol]
        cases runRowsT rest s' [] tol <;> rfl
      | none =>
        rw [runRowsT_fst rest s' (grp ++ [row]) tol]
        cases runRowsT rest s' (grp ++ [row]) tol <;> rfl

/-- The conservation invariant carried through the instrumented loop. -/
theorem runRowsT_conservation : ∀ (rows : List Row) (s : GState)
    (grp : List Row) (tol : ℚ) (out : List (RawTrans × List Row)),
    runRowsT rows s grp tol = .ok out →
    s.value = coinSum grp → s.paid_value = fiatSum grp →
    ∀ p ∈ out, p.1.value = coinSum p.2 ∧ p.1.paid_value = fiatSum p.2
  | [], s, grp, tol, out, h, _, _ => by
    unfold runRowsT at h
    cases h
    intro p hp
    cases hp
  | row :: rest, s, grp, tol, out, h, hv, hp => by
    unfold runRowsT at h
    cases hstep : stepRow row rest s tol with
    | error e => rw [hstep] at h; exact absurd h (by simp)
    | ok q =>
      obtain ⟨s', o⟩ := q
      rw [hstep] at h
      dsimp only at h
      rcases stepRow_amounts hstep with ⟨ho, hsv, hsp⟩ | ⟨t, ho, htv, htp, hs'⟩
      · subst ho
        cases hrec : runRowsT rest s' (grp ++ [row]) tol with
        | error e => rw [hrec] at h; exact absurd h (by simp)
        | ok ts =>
          rw [hrec] at h
          cases h
          exact runRowsT_conservation rest s' (grp ++ [row]) tol _ hrec
            (by rw [hsv, hv, coinSum_append_single])
            (by rw [hsp, hp, fiatSum_append_single])
      · subst ho
        cases hrec : runRowsT rest s' [] tol with
        | error e => rw [hrec] at h; exact absurd h (by simp)
        | ok ts =>
          rw [hrec] at h
          cases h
          intro p hpm
          rcases List.mem_cons.mp hpm with rfl | hpm'
          · exact ⟨by rw [htv, hv, coinSum_append_single],
              by rw [htp, hp, fiatSum_append_single]⟩
          · exact runRowsT_conservation rest s' [] tol _ hrec
              (by rw [hs']; rfl) (by rw [hs']; rfl) p hpm'

/-- C4: for every emitted transaction, `qty` is the sum of magnitudes of
the coin-denominated `buy` events assigned to its group and `total` the sum
of the fiat-denominated ones, where a group's rows are those processed
since the previous emission. -/
theorem C4_conservation (rows : List Row) (tol : ℚ) (out : List TransDoc)
    (h : get_transactions_from_btctrd rows tol = .ok out) :
    ∃ pairs : List (RawTrans × List Row),
      runRowsT (sortRows rows) initG [] tol = .ok pairs ∧
      out = pairs.map (fun p => prepare_transaction_doc p.1) ∧
      ∀ p ∈ pairs, (prepare_transaction_doc p.1).qty = coinSum p.2 ∧
        (prepare_transaction_doc p.1).total = fiatSum p.2 := by
  unfold get_transactions_from_btctrd at h
  cases hrun : runRows (sortRows rows) initG tol with
  | error e => rw [hrun] at h; exact absurd h (by simp)
  | ok ts =>
    rw [hrun] at h
    dsimp only at h
    cases h
    have herase := runRowsT_fst (sortRows rows) initG [] tol
    rw [hrun] at herase
    cases hT : runRowsT (sortRows rows) initG [] tol with
    | error e => rw [hT] at herase; exact Except.noConfusion herase
    | ok pairs =>
      rw [hT] at herase
      have hts : ts = pairs.map Prod.fst := Except.ok.inj herase
      refine ⟨pairs, rfl, ?_, ?_⟩
      · rw [hts, List.map_map]; rfl
      · intro p hpm
        have := runRowsT_conservation (sortRows rows) initG [] tol pairs hT
          rfl rfl p hpm
        exact ⟨this.1, this.2⟩

/-- Witness for C4 on the example scenario. -/
theorem C4_conservation_witness :
    ∃ pairs : List (RawTrans × List Row),
      runRowsT (sortRows c2rows) initG [] (mkRat 9 100000000) = .ok pairs ∧
      [c2out] = pairs.map (fun p => prepare_transaction_doc p.1) ∧
      ∀ p ∈ pairs, (prepare_transaction_doc p.1).qty = coinSum p.2 ∧
        (prepare_transaction_doc p.1).total = fiatSum p.2 :=
  C4_conservation c2rows (mkRat 9 100000000) [c2out] (by decide)

/-! ## The btctrd ledger parser -/

/-- Fatal conditions of the parser: the three `assert`s of
`parse_btctrd_data` / `parse_btctrd_act_category`, Python `ValueError`
from `strptime`/`float`, and `IndexError` from missing fields. -/
inductive ParseErr where
  | schemaMismatch
  | ambiguousCategory
  | coinValueMismatch
  | valueError
  | indexError
deriving DecidableEq, Repr

/-- Numeric value of a digit run. -/
def digitsToNat (cs : List Char) : ℕ :=
  cs.foldl (fun n c => 10 * n + (c.toNat - 48)) 0

/-- Days of a month in the Gregorian calendar. -/
def daysInMonth (y m : ℕ) : ℕ :=
  if m = 2 then (if y % 4 = 0 ∧ (y % 100 ≠ 0 ∨ y % 400 = 0) then 29 else 28)
  else if m = 4 ∨ m = 6 ∨ m = 9 ∨ m = 11 then 30 else 31

/-- Two-digit zero-padded decimal rendering (fields are below 100). -/
def pad2 (n : ℕ) : List Char :=
  [Char.ofNat (48 + n / 10 % 10), Char.ofNat (48 + n % 10)]

/-- Four-digit zero-padded decimal rendering. -/
def pad4 (n : ℕ) : List Char :=
  [Char.ofNat (48 + n / 1000 % 10), Char.ofNat (48 + n / 100 % 10),
   Char.ofNat (48 + n / 10 % 10), Char.ofNat (48 + n % 10)]

/-- `str(utc_dt)[:19]`: the `YYYY-MM-DD HH:MM:SS` rendering (seconds are
always zero here since the input carries minute precision). -/
def formatDttm (y mo d h mi : ℕ) : String :=
  ⟨pad4 y ++ '-' :: pad2 mo ++ '-' :: pad2 d ++ ' ' :: pad2 h ++
    ':' :: pad2 mi ++ [':', '0', '0']⟩

/-- `parse_sp_dttm` (lines 18-23): parse `'%d/%m/%Y %H:%M'`, localize to
America/Sao_Paulo and convert to UTC, keeping the first 19 characters.
The zone is modelled at its fixed standard offset UTC-3, in force since
November 2019 (the historical DST table of the external `pytz` library is
not modelled); `strptime`'s field validation is modelled by the calendar
range checks, and a malformed string is Python's `ValueError`. -/
def parse_sp_dttm (dttm : String) : Except ParseErr String :=
  let cs := dttm.data
  let p1 := cs.span Char.isDigit
  match p1.2 with
  | '/' :: r2 =>
    let p2 := r2.span Char.isDigit
    match p2.2 with
    | '/' :: r4 =>
      let p3 := r4.span Char.isDigit
      match p3.2 with
      | ' ' :: r6 =>
        let p4 := r6.span Char.isDigit
        match p4.2 with
        | ':' :: r8 =>
          let p5 := r8.span Char.isDigit
          if p5.2 = [] ∧ p1.1 ≠ [] ∧ p2.1 ≠ [] ∧ p3.1 ≠ [] ∧ p4.1 ≠ [] ∧
              p5.1 ≠ [] then
            let day := digitsToNat p1.1
            let mon := digitsToNat p2.1
            let yr := digitsToNat p3.1
            let hr := digitsToNat p4.1
            let mi := digitsToNat p5.1
            if 1 ≤ mon ∧ mon ≤ 12 ∧ 1 ≤ day ∧ day ≤ daysInMonth yr mon ∧
                hr ≤ 23 ∧ mi ≤ 59 then
              if hr + 3 ≤ 23 then .ok (formatDttm yr mon day (hr + 3) mi)
              else if day + 1 ≤ daysInMonth yr mon then
                .ok (formatDttm yr mon (day + 1) (hr + 3 - 24) mi)
              else if mon = 12 then .ok (formatDttm (yr + 1) 1 1 (hr + 3 - 24) mi)
              else .ok (formatDttm yr (mon + 1) 1 (hr + 3 - 24) mi)
            else .error .valueError
          else .error .valueError
        | _ => .error .valueError
      | _ => .error .valueError
    | _ => .error .valueError
  | _ => .error .valueError

/-- Fuelled worker for Python's `str.replace`: non-overlapping,
left-to-right, the replacement text is not rescanned. -/
def replaceAllAux : ℕ → List Char → List Char → List Char → List Char
  | 0, _, _, s => s
  | _ + 1, _, _, [] => []
  | fuel + 1, pat, rep, c :: cs =>
    if pat ≠ [] ∧ pat.isPrefixOf (c :: cs) then
      rep ++ replaceAllAux fuel pat rep ((c :: cs).drop pat.length)
    else c :: replaceAllAux fuel pat rep cs

/-- Python's `str.replace` (all occurrences).  The source only calls it
with non-empty patterns; the empty pattern is treated as a no-op here. -/
def strReplace (s pat rep : String) : String :=
  ⟨replaceAllAux s.data.length pat.data rep.data s.data⟩

/-- `mult_replaces` (lines 26-30). -/
def mult_replaces (val : String) (rep_tups : List (String × String)) : String :=
  rep_tups.foldl (fun v t => strReplace v t.1 t.2) val

/-- Fuelled worker for Python's `str.count` (non-overlapping). -/
def countSubAux : ℕ → List Char → List Char → ℕ
  | 0, _, _ => 0
  | _ + 1, _, [] => 0
  | fuel + 1, pat, c :: cs =>
    if pat.isPrefixOf (c :: cs) then
      1 + countSubAux fuel pat ((c :: cs).drop pat.length)
    else countSubAux fuel pat cs

/-- Python's `str.count` for substrings; an empty pattern counts
`len(s) + 1` as in Python. -/
def strCount (s pat : String) : ℕ :=
  if pat.data = [] then s.data.length + 1
  else countSubAux s.data.length pat.data s.data

/-- The `re_groups` table of `parse_btctrd_act_category` (lines 35-42),
each regex replaced by its matcher: `'^Compra$'` is an exact match (the
trailing-newline tolerance of Python's `$` is not modelled), the others
are prefix matches. -/
def re_groups : List ((String → Bool) × String) :=
  [(fun v => v == "Compra", "buy"),
   (fun v => strStartsWith v "Depósito", "deposit"),
   (fun v => strStartsWith v "Retirada para", "withdraw"),
   (fun v => strStartsWith v "Taxa de mineração", "withdrawal_fee"),
   (fun v => strStartsWith v "Taxa sobre compra", "buying_fee"),
   (fun v => strStartsWith v "Venda", "sell")]

/-- The `res` list of matching categories (lines 43-46). -/
def matchedCategories (val : String) : List String :=
  (re_groups.filter (fun g => g.1 val)).map Prod.snd

/-- `parse_btctrd_act_category` (lines 33-48): the assert demands exactly
one matching pattern. -/
def parse_btctrd_act_category (val : String) : Except ParseErr String :=
  match matchedCategories val with
  | [res] => .ok res
  | _ => .error .ambiguousCategory

/-- `coin_map.get(x, x.upper())` (line 68 with line 71). -/
def coinMap (x : String) : String :=
  if x == "Bitcoin" then "BTC" else if x == "Real" then "R$" else x.toUpper

/-- A row after the transform loop of lines 76-81, before value parsing:
`value` and `balance` still hold the raw strings. -/
structure BtcParsedRow where
  dttm : String
  coin : String
  act : String
  value : String
  balance : String
deriving DecidableEq, Repr

/-- The transform of one data row (lines 77-81, via the `parsers` table):
field extraction by position; a short row is Python's `IndexError`. -/
def transformRow (row : List String) : Except ParseErr BtcParsedRow :=
  match row with
  | c0 :: c1 :: c2 :: c3 :: c4 :: _ =>
    match parse_sp_dttm c0 with
    | .error e => .error e
    | .ok dt =>
      match parse_btctrd_act_category c2 with
      | .error e => .error e
      | .ok act =>
        .ok { dttm := dt, coin := coinMap c1, act := act, value := c3,
              balance := c4 }
  | _ => .error .indexError

/-- The transform loop over all data rows, in input order. -/
def transformRows : List (List String) → Except ParseErr (List BtcParsedRow)
  | [] => .ok []
  | row :: rest =>
    match transformRow row with
    | .error e => .error e
    | .ok r =>
      match transformRows rest with
      | .error e => .error e
      | .ok rs => .ok (r :: rs)

/-- Python `float()` on the decimal strings this source produces after
cleanup: optional sign, digits, optional single fractional part; anything
else is `ValueError` (scientific notation and specials are not modelled —
the source's inputs never produce them). -/
def parseFloatQ (s : String) : Except ParseErr ℚ :=
  let p0 : Bool × List Char :=
    match s.data with
    | '-' :: t => (true, t)
    | '+' :: t => (false, t)
    | t => (false, t)
  let p1 := p0.2.span Char.isDigit
  match p1.2 with
  | [] =>
    if p1.1 = [] then .error .valueError
    else
      let mag : ℚ := mkRat (digitsToNat p1.1) 1
      .ok (if p0.1 then Rat.neg mag else mag)
  | '.' :: fr =>
    let p2 := fr.span Char.isDigit
    if p2.2 = [] ∧ (p1.1 ≠ [] ∨ p2.1 ≠ []) then
      let mag : ℚ := mkRat (digitsToNat p1.1 * 10 ^ p2.1.length + digitsToNat p2.1)
        (10 ^ p2.1.length)
      .ok (if p0.1 then Rat.neg mag else mag)
    else .error .valueError
  | _ => .error .valueError

/-- `parse_btctrd_values` (lines 51-57): literal cleanup of the `value`
and `balance` fields followed by `float()`. -/
def parse_btctrd_values (r : BtcParsedRow) : Except ParseErr Row :=
  let rep_list := [(r.coin ++ " ", ""), (".", ""), (",", ".")]
  match parseFloatQ (mult_replaces r.value rep_list) with
  | .error e => .error e
  | .ok v =>
    match parseFloatQ (mult_replaces r.balance rep_list) with
    | .error e => .error e
    | .ok b =>
      .ok { dttm := r.dttm, coin := r.coin, act := r.act, value := v,
            balance := b }

/-- The value-parsing loop of lines 86-88, in input order. -/
def valuesRows : List BtcParsedRow → Except ParseErr (List Row)
  | [] => .ok []
  | r :: rest =>
    match parse_btctrd_values r with
    | .error e => .error e
    | .ok v =>
      match valuesRows rest with
      | .error e => .error e
      | .ok vs => .ok (v :: vs)

/-- The expected header (line 63). -/
def expected_cols : List String :=
  ["Data", "Moeda", "Categoria", "Valor", "Saldo após"]

/-- `parse_btctrd_data` (lines 60-89): header check, per-row transform,
the coin/value containment check of line 83 (`value.count(coin) == 1`),
then value parsing.  The empty input's `rows_list[0]` is Python's
`IndexError`; the function performs no sorting. -/
def parse_btctrd_data (rows_list : List (List String)) :
    Except ParseErr (List Row) :=
  match rows_list with
  | [] => .error .indexError
  | header :: data =>
    if header ≠ expected_cols then .error .schemaMismatch
    else
      match transformRows data with
      | .error e => .error e
      | .ok parsed =>
        if parsed.all (fun r => strCount r.value r.coin == 1) then
          valuesRows parsed
        else .error .coinValueMismatch

/-! ## C5: who owns the sort? -/

/-- Per-row fusion of the parser's three stages (transform, containment
check, value parse), used to state that the parser's output is the per-row
image of its input in input order. -/
def parseRowFused (row : List String) : Except ParseErr Row :=
  match transformRow row with
  | .error e => .error e
  | .ok p =>
    if strCount p.value p.coin == 1 then parse_btctrd_values p
    else .error .coinValueMismatch

/-- `parseRowFused` mapped over the data rows, in input order. -/
def parseRowsFused : List (List String) → Except ParseErr (List Row)
  | [] => .ok []
  | row :: rest =>
    match parseRowFused row with
    | .error e => .error e
    | .ok r =>
      match parseRowsFused rest with
      | .error e => .error e
      | .ok rs => .ok (r :: rs)

theorem parse_stages_fuse : ∀ (data : List (List String))
    (ps : List BtcParsedRow) (l : List Row),
    transformRows data = .ok ps →
    ps.all (fun r => strCount r.value r.coin == 1) = true →
    valuesRows ps = .ok l → parseRowsFused data = .ok l
  | [], ps, l, ht, _, hv => by
    unfold transformRows at ht
    cases ht
    unfold valuesRows at hv
    cases hv
    rfl
  | row :: rest, ps, l, ht, ha, hv => by
    unfold transformRows at ht
    cases htr : transformRow row with
    | error e => rw [htr] at ht; exact absurd ht (by simp)
    | ok p =>
      rw [htr] at ht
      dsimp only at ht
      cases hts : transformRows rest with
      | error e => rw [hts] at ht; exact absurd ht (by simp)
      | ok ps' =>
        rw [hts] at ht
        dsimp only at ht
        cases ht
        rw [List.all_cons, Bool.and_eq_true] at ha
        unfold valuesRows at hv
        cases hpv : parse_btctrd_values p with
        | error e => rw [hpv] at hv; exact absurd hv (by simp)
        | ok v =>
          rw [hpv] at hv
          dsimp only at hv
          cases hvs : valuesRows ps' with
          | error e => rw [hvs] at hv; exact absurd hv (by simp)
          | ok vs =>
            rw [hvs] at hv
            dsimp only at hv
            cases hv
            unfold parseRowsFused parseRowFused
            rw [htr]
            dsimp only
            rw [if_pos ha.1, hpv]
            dsimp only
            rw [parse_stages_fuse rest ps' vs hts ha.2 hvs]

/-- C5 (amended): the sort by `(timestamp, category, currency)` is owned by
the engine, not the parser: pre-sorting the engine's input changes nothing,
and the parser maps its data rows in input order without re-ordering. -/
theorem C5_sort_ownership_amended :
    (∀ (rows : List Row) (tol : ℚ),
      get_transactions_from_btctrd (sortRows rows) tol =
        get_transactions_from_btctrd rows tol) ∧
    (∀ (header : List String) (data : List (List String)) (l : List Row),
      parse_btctrd_data (header :: data) = .ok l →
        header = expected_cols ∧ parseRowsFused data = .ok l) := by
  constructor
  · intro rows tol
    unfold get_transactions_from_btctrd
    have hss : sortRows (sortRows rows) = sortRows rows :=
      List.Sorted.insertionSort_eq (List.sorted_insertionSort keyLE rows)
    rw [hss]
  · intro header data l h
    unfold parse_btctrd_data at h
    dsimp only at h
    by_cases hne : header = expected_cols
    · rw [if_neg (not_ne_iff.mpr hne)] at h
      refine ⟨hne, ?_⟩
      cases hts : transformRows data with
      | error e => rw [hts] at h; exact absurd h (by simp)
      | ok ps =>
        rw [hts] at h
        dsimp only at h
        by_cases hall : ps.all (fun r => strCount r.value r.coin == 1) = true
        · rw [if_pos hall] at h
          exact parse_stages_fuse data ps l hts hall h
        · rw [if_neg hall] at h
          exact absurd h (by simp)
    · rw [if_pos hne] at h
      exact absurd h (by simp)

/-- The raw csv rows of the C5 counterexample: two same-instant rows whose
categories arrive in anti-sorted order. -/
def c5data : List (List String) :=
  [["01/01/2020 10:00", "Bitcoin", "Taxa sobre compra", "BTC 0,00005", "BTC 0,01"],
   ["01/01/2020 10:00", "Bitcoin", "Compra", "BTC 0,01", "BTC 0,01"]]

/-- What the parser returns on `c5data`: input order, `buying_fee` first. -/
def c5parsed : List Row :=
  [{ dttm := "2020-01-01 13:00:00", coin := "BTC", act := "buying_fee",
     value := mkRat 1 20000, balance := mkRat 1 100 },
   { dttm := "2020-01-01 13:00:00", coin := "BTC", act := "buy",
     value := mkRat 1 100, balance := mkRat 1 100 }]

/-- C5 counterexample: on a valid input the parser's output is *not*
sorted by `(timestamp, category, currency)` — `buying_fee` precedes `buy`
at the same timestamp, as in the input.  The sort happens in the engine
(line 112), not the parser. -/
theorem C5_parser_sort_counterexample :
    parse_btctrd_data (expected_cols :: c5data) = .ok c5parsed ∧
      ¬ c5parsed.Sorted keyLE := by
  constructor
  · decide
  · intro hs
    have h := List.rel_of_sorted_cons hs _ (List.mem_cons_self _ _)
    exact absurd h (by decide)

/-- Witness for the amended C5 at concrete inputs. -/
theorem C5_sort_ownership_witness :
    (get_transactions_from_btctrd (sortRows c2rows) (mkRat 9 100000000) =
      get_transactions_from_btctrd c2rows (mkRat 9 100000000)) ∧
    (expected_cols = expected_cols ∧ parseRowsFused c5data = .ok c5parsed) :=
  ⟨C5_sort_ownership_amended.1 c2rows (mkRat 9 100000000),
   C5_sort_ownership_amended.2 expected_cols c5data c5parsed (by decide)⟩

/-! ## C6: the four fatal error conditions -/

/-- C6: (i) a header-row schema mismatch aborts the parse; (ii) a category
matching zero or several patterns aborts the category parse; (iii) a
non-fiat buy-prefixed row naming a coin different from the bound one aborts
the engine step; (iv) a fiat-denominated buying fee aborts the engine step;
(v) an aborted step aborts the whole engine run — the `Except` result
carries no partial output by construction. -/
theorem C6_fatal_errors :
    (∀ (header : List String) (data : List (List String)),
      header ≠ expected_cols →
      parse_btctrd_data (header :: data) = .error .schemaMismatch) ∧
    (∀ v : String, (matchedCategories v).length ≠ 1 →
      parse_btctrd_act_category v = .error .ambiguousCategory) ∧
    (∀ (row : Row) (rest : List Row) (s : GState) (tol : ℚ) (c : String),
      s.coin = some c → row.coin ≠ "R$" →
      strStartsWith row.act "buy" = true → row.coin ≠ c →
      stepRow row rest s tol = .error .coinMismatch) ∧
    (∀ (row : Row) (rest : List Row) (s : GState) (tol : ℚ),
      row.act = "buying_fee" → row.coin = "R$" →
      stepRow row rest s tol = .error .fiatBuyingFee) ∧
    (∀ (row : Row) (rest : List Row) (s : GState) (tol : ℚ) (e : EngErr),
      stepRow row rest s tol = .error e →
      runRows (row :: rest) s tol = .error e) := by
  refine ⟨?_, ?_, ?_, ?_, ?_⟩
  · intro header data hne
    unfold parse_btctrd_data
    dsimp only
    rw [if_pos hne]
  · intro v h
    unfold parse_btctrd_act_category
    cases hm : matchedCategories v with
    | nil => rfl
    | cons a t =>
      cases t with
      | nil => rw [hm] at h; exact absurd rfl h
      | cons b t' => rfl
  · intro row rest s tol c hc hnf hb hne
    unfold stepRow
    rw [if_pos hb]
    unfold preClose coinCheckStep
    have h1 : (row.coin == "R$") = false := beq_eq_false_iff_ne.mpr hnf
    have h2 : (c == row.coin) = false :=
      beq_eq_false_iff_ne.mpr (fun hh => hne hh.symm)
    rw [hc]
    simp only [h1, Bool.false_eq_true, if_false, h2]
  · intro row rest s tol hact hcoin
    have hb : strStartsWith row.act "buy" = true := by rw [hact]; rfl
    unfold stepRow
    rw [if_pos hb]
    unfold preClose coinCheckStep
    have h1 : (row.coin == "R$") = true := beq_iff_eq.mpr hcoin
    have h2 : (row.act == "buy") = false := by rw [hact]; rfl
    have h3 : (row.act == "buying_fee") = true := beq_iff_eq.mpr hact
    simp only [h1, if_true]
    unfold accumStep
    simp only [h1, h2, h3, Bool.false_eq_true, if_false, if_true]
  · intro row rest s tol e h
    unfold runRows
    rw [h]

/-- Witness for C6: each conjunct at a concrete input. -/
theorem C6_fatal_errors_witness :
    parse_btctrd_data [["bad"]] = .error .schemaMismatch ∧
    parse_btctrd_act_category "Dinheiro" = .error .ambiguousCategory ∧
    stepRow { dttm := "t", coin := "ETH", act := "buy", value := 1, balance := 0 }
      [] { initG with coin := some "BTC" } (mkRat 9 100000000) =
      .error .coinMismatch ∧
    stepRow { dttm := "t", coin := "R$", act := "buying_fee", value := 1, balance := 0 }
      [] initG (mkRat 9 100000000) = .error .fiatBuyingFee ∧
    runRows [{ dttm := "t", coin := "R$", act := "buying_fee", value := 1, balance := 0 }]
      initG (mkRat 9 100000000) = .error .fiatBuyingFee :=
  ⟨C6_fatal_errors.1 ["bad"] [] (by decide),
   C6_fatal_errors.2.1 "Dinheiro" (by decide),
   C6_fatal_errors.2.2.1 _ [] _ _ "BTC" rfl (by decide) (by decide) (by decide),
   C6_fatal_errors.2.2.2.1 _ [] _ _ rfl rfl,
   C6_fatal_errors.2.2.2.2 _ [] _ _ _
     (C6_fatal_errors.2.2.2.1 _ [] _ _ rfl rfl)⟩
